import Mathlib

/-!
Shallow embedding of the fallback receipt-text parser of
`src/ProjectRaseed/app (2).py` (functions `extract_amounts_from_text`,
`extract_tax_from_text`, `extract_items_from_text`,
`parse_receipt_with_fallback`).

Modelling choices, documented once here:

* Text is `List Char` (Unicode code points, as in Python `str`).
* Monetary values are integer *cents* (`ℤ`).  Every numeric string the
  parser accepts matches `\d+\.\d{2}`, so every value the code handles is
  an exact multiple of 0.01; on such values Python's `round(x, 2)` is the
  identity and float sums/differences are modelled exactly by integer
  arithmetic on cents.  The Python range bound `0.01 <= a <= 99999.99`
  becomes `1 <= cents <= 9999999`.
* The `re` character classes `\d`, `\w`, `\s` and `re.IGNORECASE` are
  modelled over ASCII (`0-9`, `[A-Za-z0-9_]`, the six ASCII whitespace
  characters, ASCII case folding), which is exact on all ASCII input.
* Each concrete regular expression of the source is compiled by hand into
  a deterministic matcher.  All quantified sub-patterns of these regexes
  are character classes disjoint from what can follow them, so the greedy
  (resp. lazy, for `(.+?)`) backtracking search of Python's engine has a
  unique viable outcome at every choice point, which the matchers compute
  directly; the lazy group of the item pattern is searched shortest-first
  exactly as the engine does.
* `re.findall` is the usual leftmost, non-overlapping scan: try the
  pattern at each position, on success continue right after the match,
  on failure advance one character.  The scan below carries a fuel
  argument equal to the input length plus one; every pattern of the
  source consumes at least one character per match, so the fuel never
  runs out.
* Python `float(s)` is modelled by `parseCents`, which accepts exactly
  the shape `\d+\.\d{2}`; every string reachable at a `float(...)` call
  of the parser either has this shape or (for `£`/`€`-prefixed item
  prices) raises `ValueError`, modelled by `none`.
-/

namespace Raseed

/-! ## Character classes (ASCII model of Python `re` classes) -/

def isDigitC (c : Char) : Bool := '0' ≤ c && c ≤ '9'

def isWordC (c : Char) : Bool := c.isAlphanum || c = '_'

def isSpaceC (c : Char) : Bool :=
  c = ' ' || c = '\t' || c = '\n' || c = '\r' || c = '\x0b' || c = '\x0c'

def isCurrencyC (c : Char) : Bool := c = '$' || c = '£' || c = '€'

/-! ## String helpers -/

/-- Maximal run of decimal digits at the front: `(run, rest)`. -/
def takeDigits : List Char → List Char × List Char
  | [] => ([], [])
  | c :: rest =>
    if isDigitC c then
      let p := takeDigits rest
      (c :: p.1, p.2)
    else ([], c :: rest)

/-- Maximal run of whitespace at the front: `(run, rest)`. -/
def takeSpaces : List Char → List Char × List Char
  | [] => ([], [])
  | c :: rest =>
    if isSpaceC c then
      let p := takeSpaces rest
      (c :: p.1, p.2)
    else ([], c :: rest)

/-- Python `str.strip()`: drop whitespace from both ends. -/
def strip (s : List Char) : List Char :=
  ((s.dropWhile isSpaceC).reverse.dropWhile isSpaceC).reverse

/-- Python `str.split('\n')`: always at least one segment. -/
def splitNl : List Char → List (List Char)
  | [] => [[]]
  | c :: rest =>
    if c = '\n' then [] :: splitNl rest
    else
      match splitNl rest with
      | l :: ls => (c :: l) :: ls
      | [] => [[c]]

/-- Numeric value of a digit run. -/
def digitsVal (ds : List Char) : ℤ :=
  ds.foldl (fun n c => 10 * n + ((c.toNat : ℤ) - 48)) 0

/-- Python `float(s)` restricted to the shapes reachable in this parser:
`s` of shape `\d+\.\d{2}` yields its value in cents, anything else
(e.g. a `£`/`€`-prefixed price string) raises `ValueError`, i.e. `none`. -/
def parseCents (s : List Char) : Option ℤ :=
  let p := takeDigits s
  if p.1.isEmpty then none
  else
    match p.2 with
    | '.' :: rest =>
      let q := takeDigits rest
      if q.1.length = 2 ∧ q.2.isEmpty then some (digitsVal p.1 * 100 + digitsVal q.1)
      else none
    | _ => none

/-- Python `s.replace(',', '')`. -/
def removeCommas (s : List Char) : List Char := s.filter (fun c => c ≠ ',')

/-- Python `s.replace('$', '').replace(',', '').strip()` (the item-price
clean-up of the source; note it does *not* remove `£` or `€`). -/
def cleanPrice (s : List Char) : List Char :=
  strip (s.filter (fun c => c ≠ '$' ∧ c ≠ ','))

/-! ## Regex building blocks -/

/-- Case-insensitive literal keyword at the front (keyword given in
lowercase); returns the rest on success. -/
def stripKeywordCI : List Char → List Char → Option (List Char)
  | [], cs => some cs
  | _ :: _, [] => none
  | k :: ks, c :: cs => if c.toLower = k then stripKeywordCI ks cs else none

/-- First keyword of the list that matches at the front (the regex
alternation `(?:k1|k2|...)`; the keywords used here are never prefixes of
one another, so order only mirrors the source). -/
def matchKeywords (kws : List (List Char)) (cs : List Char) : Option (List Char) :=
  match kws with
  | [] => none
  | k :: ks =>
    match stripKeywordCI k cs with
    | some r => some r
    | none => matchKeywords ks cs

/-- Matcher for `\d+\.\d{2}` at the front: returns (captured text, rest). `\d+` is
greedy and digits are disjoint from `.`, so the maximal digit run is the
only viable choice. -/
def takeDec (cs : List Char) : Option (List Char × List Char) :=
  let p := takeDigits cs
  if p.1.isEmpty then none
  else
    match p.2 with
    | '.' :: d1 :: d2 :: r2 =>
      if isDigitC d1 && isDigitC d2 then some (p.1 ++ ['.', d1, d2], r2) else none
    | _ => none

/-- Check for `\b` right after a word character: the next character must be absent
or a non-word character. -/
def atWordBreak : List Char → Bool
  | [] => true
  | c :: _ => !isWordC c

/-- Greedy `(?:,\d{3})*`: maximal run of comma-plus-three-digit groups.
(If the run is followed by anything but `.`, every shorter prefix of the
run is followed by `,`, so no backtracking into the star can succeed.) -/
def takeThousandsGroups : List Char → List Char × List Char
  | ',' :: a :: b :: c :: rest =>
    if isDigitC a && isDigitC b && isDigitC c then
      let p := takeThousandsGroups rest
      (',' :: a :: b :: c :: p.1, p.2)
    else ([], ',' :: a :: b :: c :: rest)
  | cs => ([], cs)

/-- After the optional-colon/currency/space prefix chain
`\s*[\$\£\€]?\s*` (all classes pairwise disjoint and disjoint from the
digit that must follow, hence deterministic). -/
def skipSpacesCurrencySpaces (cs : List Char) : List Char :=
  let r1 := (takeSpaces cs).2
  let r2 :=
    match r1 with
    | c :: r => if isCurrencyC c then r else r1
    | [] => r1
  (takeSpaces r2).2

/-- Optional colon `:?` after spaces: `\s*:?\s*` continued by a non-space,
non-colon class. -/
def skipOptColon (cs : List Char) : List Char :=
  match cs with
  | ':' :: r => r
  | _ => cs

/-! ## The five amount patterns (source lines 62-68) -/

/-- Pattern `(?:total|amount|balance|due)\s*:?\s*[\$\£\€]?\s*(\d+\.\d{2})`. -/
def matchA1 (_ : Bool) (cs : List Char) : Option (List Char × List Char) :=
  match matchKeywords [['t','o','t','a','l'], ['a','m','o','u','n','t'],
      ['b','a','l','a','n','c','e'], ['d','u','e']] cs with
  | none => none
  | some r0 =>
    let r1 := (takeSpaces r0).2
    let r2 := skipOptColon r1
    takeDec (skipSpacesCurrencySpaces r2)

/-- Pattern `[\$\£\€](\d+\.\d{2})\b`. -/
def matchA2 (_ : Bool) (cs : List Char) : Option (List Char × List Char) :=
  match cs with
  | c :: r0 =>
    if isCurrencyC c then
      match takeDec r0 with
      | some (cap, r2) => if atWordBreak r2 then some (cap, r2) else none
      | none => none
    else none
  | [] => none

/-- Pattern `\b(\d+\.\d{2})\s*[\$\£\€]`: the leading `\b` before a digit
requires the previous character to be absent or non-word. -/
def matchA3 (prevW : Bool) (cs : List Char) : Option (List Char × List Char) :=
  if prevW then none
  else
    match takeDec cs with
    | some (cap, r2) =>
      match (takeSpaces r2).2 with
      | c :: r4 => if isCurrencyC c then some (cap, r4) else none
      | [] => none
    | none => none

/-- Pattern `(?:subtotal|sub-total)\s*[\$\£\€]?\s*(\d+\.\d{2})`. -/
def matchA4 (_ : Bool) (cs : List Char) : Option (List Char × List Char) :=
  match matchKeywords [['s','u','b','t','o','t','a','l'],
      ['s','u','b','-','t','o','t','a','l']] cs with
  | none => none
  | some r0 => takeDec (skipSpacesCurrencySpaces r0)

/-- Pattern `\b(\d{1,3}(?:,\d{3})*\.\d{2})\b`.  `\d{1,3}` can only take
the whole digit run (a shorter take is followed by a digit where `,` or
`.` is required), so a run longer than 3 fails. -/
def matchA5 (prevW : Bool) (cs : List Char) : Option (List Char × List Char) :=
  if prevW then none
  else
    let p := takeDigits cs
    if p.1.isEmpty || decide (3 < p.1.length) then none
    else
      let q := takeThousandsGroups p.2
      match q.2 with
      | '.' :: d1 :: d2 :: r3 =>
        if isDigitC d1 && isDigitC d2 && atWordBreak r3 then
          some (p.1 ++ q.1 ++ ['.', d1, d2], r3)
        else none
      | _ => none

/-! ## The three tax patterns (source lines 84-88) -/

/-- Pattern `(?:tax|gst|vat|hst)\s*[\$\£\€]?\s*(\d+\.\d{2})`. -/
def matchT1 (_ : Bool) (cs : List Char) : Option (List Char × List Char) :=
  match matchKeywords [['t','a','x'], ['g','s','t'], ['v','a','t'], ['h','s','t']] cs with
  | none => none
  | some r0 => takeDec (skipSpacesCurrencySpaces r0)

/-- Pattern `(?:tax|gst|vat|hst)\s*:?\s*[\$\£\€]?\s*(\d+\.\d{2})`. -/
def matchT2 (_ : Bool) (cs : List Char) : Option (List Char × List Char) :=
  match matchKeywords [['t','a','x'], ['g','s','t'], ['v','a','t'], ['h','s','t']] cs with
  | none => none
  | some r0 =>
    let r1 := (takeSpaces r0).2
    takeDec (skipSpacesCurrencySpaces (skipOptColon r1))

/-- Pattern `[\$\£\€](\d+\.\d{2})\s*(?:tax|gst|vat|hst)`. -/
def matchT3 (_ : Bool) (cs : List Char) : Option (List Char × List Char) :=
  match cs with
  | c :: r0 =>
    if isCurrencyC c then
      match takeDec r0 with
      | some (cap, r2) =>
        match matchKeywords [['t','a','x'], ['g','s','t'], ['v','a','t'], ['h','s','t']]
            ((takeSpaces r2).2) with
        | some r4 => some (cap, r4)
        | none => none
      | none => none
    else none
  | [] => none

/-! ## The item pattern `(.+?)\s+([\$\£\€]?\s*\d+\.\d{2})\b` (source line 100) -/

/-- The part after the lazy name group: `\s+([\$\£\€]?\s*\d+\.\d{2})\b`.
`\s+` is greedy; whether it keeps some spaces for the group's inner `\s*`
or not, the digits must start after the whole space run, so the greedy
split is the unique viable one.  Returns (group-2 text, rest). -/
def itemPricePart (cs : List Char) : Option (List Char × List Char) :=
  match cs with
  | [] => none
  | c :: r0 =>
    if isSpaceC c then
      match (takeSpaces r0).2 with
      | c2 :: r2 =>
        if isCurrencyC c2 then
          let sp := takeSpaces r2
          match takeDec sp.2 with
          | some (cap, r4) =>
            if atWordBreak r4 then some (c2 :: (sp.1 ++ cap), r4) else none
          | none => none
        else
          match takeDec (c2 :: r2) with
          | some (cap, r4) => if atWordBreak r4 then some (cap, r4) else none
          | none => none
      | [] => none
    else none

/-- Lazy search for `(.+?)`: grow the name one character at a time
(never across `\n`, since `.` does not match a newline) and try the price
part after each growth step — shortest name first, as the engine does. -/
def matchItemGo (nameRev : List Char) : List Char → Option ((List Char × List Char) × List Char)
  | [] => none
  | c :: rest =>
    if c = '\n' then none
    else
      match itemPricePart rest with
      | some (g2, r) => some (((c :: nameRev).reverse, g2), r)
      | none => matchItemGo (c :: nameRev) rest

def matchItem (_ : Bool) (cs : List Char) : Option ((List Char × List Char) × List Char) :=
  matchItemGo [] cs

/-! ## `re.findall`: leftmost non-overlapping scan -/

/-- One scan step per fuel unit.  `lastW` is the (statically known)
wordness of the last character each pattern consumes, used for `\b`
context after a match; `prevW` is the wordness of the character before
the current position (false at the start of the text). -/
def scanAux {α : Type} (m : Bool → List Char → Option (α × List Char)) (lastW : Bool) :
    Nat → Bool → List Char → List α
  | 0, _, _ => []
  | Nat.succ fuel, prevW, cs =>
    match cs with
    | [] => []
    | c :: rest =>
      match m prevW cs with
      | some (a, rest') => a :: scanAux m lastW fuel lastW rest'
      | none => scanAux m lastW fuel (isWordC c) rest

def findall {α : Type} (m : Bool → List Char → Option (α × List Char)) (lastW : Bool)
    (cs : List Char) : List α :=
  scanAux m lastW (cs.length + 1) false cs

def findallA1 (t : List Char) : List (List Char) := findall matchA1 true t
def findallA2 (t : List Char) : List (List Char) := findall matchA2 true t
def findallA3 (t : List Char) : List (List Char) := findall matchA3 false t
def findallA4 (t : List Char) : List (List Char) := findall matchA4 true t
def findallA5 (t : List Char) : List (List Char) := findall matchA5 true t
def findallT1 (t : List Char) : List (List Char) := findall matchT1 true t
def findallT2 (t : List Char) : List (List Char) := findall matchT2 true t
def findallT3 (t : List Char) : List (List Char) := findall matchT3 true t
def findallItem (t : List Char) : List (List Char × List Char) := findall matchItem true t

/-! ## The four parser functions (source lines 60-132) -/

/-- The body of the per-match loop of `extract_amounts_from_text`:
`clean = match.replace(',', ''); amount = float(clean);
if 0.01 <= amount <= 99999.99: append` with `ValueError` skipping. -/
def amountOfCapture (c : List Char) : Option ℤ :=
  match parseCents (removeCommas c) with
  | some v => if 1 ≤ v ∧ v ≤ 9999999 then some v else none
  | none => none

/-- The `amounts` list in source order, before `set`/`sorted`. -/
def raw_amounts (t : List Char) : List ℤ :=
  (findallA1 t ++ findallA2 t ++ findallA3 t ++ findallA4 t ++ findallA5 t).filterMap
    amountOfCapture

/-- Python `sorted(list(set(amounts)), reverse=True)`. -/
def extract_amounts_from_text (t : List Char) : List ℤ :=
  List.insertionSort (· ≥ ·) (raw_amounts t).dedup

/-- Third tax pattern; after it the loop ends and `0.00` is returned. -/
def taxFrom3 (t : List Char) : ℤ :=
  match findallT3 t with
  | c :: _ =>
    match parseCents (removeCommas c) with
    | some v => v
    | none => 0
  | [] => 0

def taxFrom2 (t : List Char) : ℤ :=
  match findallT2 t with
  | c :: _ =>
    match parseCents (removeCommas c) with
    | some v => v
    | none => taxFrom3 t
  | [] => taxFrom3 t

/-- Source `extract_tax_from_text`: first pattern (in order) with a non-empty
match list whose first match parses; `0.00` otherwise. -/
def extract_tax_from_text (t : List Char) : ℤ :=
  match findallT1 t with
  | c :: _ =>
    match parseCents (removeCommas c) with
    | some v => v
    | none => taxFrom2 t
  | [] => taxFrom2 t

structure Item where
  name : List Char
  price : ℤ
deriving DecidableEq

/-- The per-match loop of `extract_items_from_text`. -/
def itemsGo : List (List Char × List Char) → List Item
  | [] => []
  | (n, p) :: rest =>
    let name := strip n
    match parseCents (cleanPrice p) with
    | some price =>
      if 0 < price ∧ 1 < name.length then { name := name, price := price } :: itemsGo rest
      else itemsGo rest
    | none => itemsGo rest

def extract_items_from_text (t : List Char) : List Item :=
  itemsGo (findallItem t)

structure ReceiptRecord where
  merchant : List Char
  date : String
  total : ℤ
  tax : ℤ
  subtotal : ℤ
  items : List Item
  category : List Char
deriving DecidableEq

/-- Python `sum(item['price'] for item in items) if items else 0` (the guard is
redundant: the sum of an empty list is 0). -/
def item_total (items : List Item) : ℤ := (items.map Item.price).sum

/-- Python `[line.strip() for line in text.split('\n') if line.strip()]`. -/
def receiptLines (t : List Char) : List (List Char) :=
  ((splitNl t).map strip).filter (fun l => !l.isEmpty)

/-- Source `parse_receipt_with_fallback`, with the `datetime.now()` read
isolated as the `today` argument.  `round(x, 2)` is the identity on
cents and is therefore omitted. -/
def parse_receipt_with_fallback (text : List Char) (today : String) : ReceiptRecord :=
  let amounts := extract_amounts_from_text text
  let tax := extract_tax_from_text text
  let items := extract_items_from_text text
  let itemTotal := item_total items
  let total :=
    match amounts with
    | a :: _ => a
    | [] => itemTotal + tax
  let subtotal := if 0 < tax then total - tax else itemTotal
  let merchant :=
    match receiptLines text with
    | l :: _ => l
    | [] => ['U','n','k','n','o','w','n']
  { merchant := merchant
    date := today
    total := total
    tax := tax
    subtotal := subtotal
    items := items.take 20
    category := ['O','t','h','e','r'] }

/-! ## Concrete inputs used by the claims -/

def d0 : String := "2026-10-12"

/-- The text of spec §8 line 5 / claim C1. -/
def exC1 : List Char := "Total: $45.67\nTax $3.00\nWidget $10.00".data

/-- The text of spec §8 line 7 / claim C2. -/
def exC2 : List Char := "Pen $2.50\nBook $12.00".data

/-- A text whose tax figure (4567.89: four integer digits, no currency
sign) is matched by no amount pattern, while `5.00` is. -/
def exC4 : List Char := "tax 4567.89\nabc 5.00".data

/-- A `£`-prefixed price: matched by the item pattern, but the source
strips only `'$'`, so `float` fails and the entry is dropped. -/
def exC7 : List Char := "ab £2.50".data

/-- Same line with `$`, where the clean-up succeeds. -/
def exC7w : List Char := "ab $2.50".data

/-- Twenty-one identical item lines; `1000.00` has four integer digits, so no
amount pattern matches anywhere. -/
def exC10 : List Char := (List.replicate 21 ("aa 1000.00\n".data)).flatten

/-- Definition following the spec's words (§4.3: "strip currency
symbols/separators from the price") for the refinement comparison of
claim C7: it removes all three currency symbols and commas.  The source
code removes only `'$'` and `','`. -/
def specStripCurrency (s : List Char) : List Char :=
  strip (s.filter (fun c => isCurrencyC c = false ∧ c ≠ ','))

/-! ## Helper lemmas -/

theorem takeDigits_fst_digits : ∀ (s : List Char), ∀ c ∈ (takeDigits s).1, isDigitC c = true := by
  intro s
  induction s with
  | nil => simp [takeDigits]
  | cons a rest ih =>
    by_cases ha : isDigitC a = true
    · intro c hc
      simp only [takeDigits, ha, if_true] at hc
      rcases List.mem_cons.mp hc with he | hm
      · exact he ▸ ha
      · exact ih c hm
    · simp [takeDigits, ha]

theorem takeDigits_digits_then_dot {ds r : List Char}
    (hd : ∀ c ∈ ds, isDigitC c = true) :
    takeDigits (ds ++ '.' :: r) = (ds, '.' :: r) := by
  induction ds with
  | nil => simp [takeDigits, (by decide : isDigitC '.' = false)]
  | cons c ds ih =>
    have hc : isDigitC c = true := hd c (List.mem_cons_self c ds)
    have ih' := ih (fun x hx => hd x (List.mem_cons_of_mem c hx))
    simp [takeDigits, hc, ih']

theorem takeDigits_all_digits {ds : List Char}
    (hd : ∀ c ∈ ds, isDigitC c = true) :
    takeDigits ds = (ds, []) := by
  induction ds with
  | nil => simp [takeDigits]
  | cons c ds ih =>
    have hc : isDigitC c = true := hd c (List.mem_cons_self c ds)
    have ih' := ih (fun x hx => hd x (List.mem_cons_of_mem c hx))
    simp [takeDigits, hc, ih']

theorem isDigitC_ne_comma {c : Char} (h : isDigitC c = true) : c ≠ ',' := by
  intro he
  subst he
  simp [isDigitC] at h

/-- Shape of every string captured by `\d+\.\d{2}` (from `takeDec`). -/
def DecShape (cap : List Char) : Prop :=
  ∃ ds d1 d2, cap = ds ++ ['.', d1, d2] ∧ ds ≠ [] ∧
    (∀ c ∈ ds, isDigitC c = true) ∧ isDigitC d1 = true ∧ isDigitC d2 = true

theorem takeDec_shape {cs cap r : List Char} (h : takeDec cs = some (cap, r)) :
    DecShape cap := by
  simp only [takeDec] at h
  split at h
  · exact absurd h (by simp)
  · rename_i hne
    split at h
    · rename_i d1 d2 r2 heq
      split at h
      · rename_i hdig
        have hdig' : isDigitC d1 = true ∧ isDigitC d2 = true := by simpa using hdig
        have hpair := Option.some.inj h
        have hcap : cap = (takeDigits cs).1 ++ ['.', d1, d2] := (congrArg Prod.fst hpair).symm
        refine ⟨(takeDigits cs).1, d1, d2, hcap, ?_, takeDigits_fst_digits cs, hdig'.1, hdig'.2⟩
        intro hnil
        rw [hnil] at hne
        simp at hne
      · exact absurd h (by simp)
    · exact absurd h (by simp)

theorem DecShape_parse {cap : List Char} (h : DecShape cap) :
    ∃ v, parseCents (removeCommas cap) = some v := by
  obtain ⟨ds, d1, d2, hcap, hne, hds, h1, h2⟩ := h
  have hrc : removeCommas cap = cap := by
    unfold removeCommas
    apply List.filter_eq_self.mpr
    intro a ha
    have hane : a ≠ ',' := by
      rw [hcap] at ha
      rcases List.mem_append.mp ha with hl | hr
      · exact isDigitC_ne_comma (hds a hl)
      · simp only [List.mem_cons, List.mem_singleton, List.not_mem_nil, or_false] at hr
        rcases hr with h | h | h
        · subst h; decide
        · exact isDigitC_ne_comma (h ▸ h1)
        · exact isDigitC_ne_comma (h ▸ h2)
    exact decide_eq_true hane
  have hsplit : takeDigits (ds ++ ['.', d1, d2]) = (ds, ['.', d1, d2]) :=
    takeDigits_digits_then_dot hds
  have h12 : takeDigits [d1, d2] = ([d1, d2], []) := by
    apply takeDigits_all_digits
    intro c hc
    simp only [List.mem_cons, List.mem_singleton, List.not_mem_nil, or_false] at hc
    rcases hc with h | h
    · exact h ▸ h1
    · exact h ▸ h2
  refine ⟨digitsVal ds * 100 + digitsVal [d1, d2], ?_⟩
  rw [hrc, hcap]
  simp [parseCents, hsplit, h12, hne]

theorem scanAux_mem {α : Type} {P : α → Prop}
    {m : Bool → List Char → Option (α × List Char)} {lastW : Bool}
    (hm : ∀ pW cs a r, m pW cs = some (a, r) → P a) :
    ∀ fuel pW cs, ∀ a ∈ scanAux m lastW fuel pW cs, P a := by
  intro fuel
  induction fuel with
  | zero => intro pW cs a h; simp [scanAux] at h
  | succ n ih =>
    intro pW cs a h
    cases cs with
    | nil => simp [scanAux] at h
    | cons c rest =>
      simp only [scanAux] at h
      split at h
      · rename_i a2 rest' hsome
        rcases List.mem_cons.mp h with he | hmem
        · exact he ▸ hm _ _ _ _ hsome
        · exact ih _ _ a hmem
      · exact ih _ _ a h

theorem matchT1_shape {pw : Bool} {cs cap r : List Char}
    (h : matchT1 pw cs = some (cap, r)) : DecShape cap := by
  simp only [matchT1] at h
  split at h
  · exact absurd h (by simp)
  · exact takeDec_shape h

theorem matchT2_shape {pw : Bool} {cs cap r : List Char}
    (h : matchT2 pw cs = some (cap, r)) : DecShape cap := by
  simp only [matchT2] at h
  split at h
  · exact absurd h (by simp)
  · exact takeDec_shape h

theorem matchT3_shape {pw : Bool} {cs cap r : List Char}
    (h : matchT3 pw cs = some (cap, r)) : DecShape cap := by
  cases cs with
  | nil => simp [matchT3] at h
  | cons c r0 =>
    by_cases hc : isCurrencyC c = true
    · rcases hdec : takeDec r0 with _ | ⟨cap2, r2⟩
      · simp [matchT3, hc, hdec] at h
      · rcases hkw : matchKeywords [['t','a','x'], ['g','s','t'], ['v','a','t'], ['h','s','t']]
            ((takeSpaces r2).2) with _ | r4
        · simp [matchT3, hc, hdec, hkw] at h
        · simp only [matchT3, hc, hdec, hkw, if_true] at h
          have hpair := Option.some.inj h
          have hcap : cap = cap2 := (congrArg Prod.fst hpair).symm
          exact hcap ▸ takeDec_shape hdec
    · simp [matchT3, hc] at h

theorem findallT1_good {t : List Char} : ∀ c ∈ findallT1 t,
    ∃ v, parseCents (removeCommas c) = some v := by
  intro c hc
  exact DecShape_parse
    (scanAux_mem (fun _ _ _ _ h => matchT1_shape h) _ _ _ c hc)

theorem findallT2_good {t : List Char} : ∀ c ∈ findallT2 t,
    ∃ v, parseCents (removeCommas c) = some v := by
  intro c hc
  exact DecShape_parse
    (scanAux_mem (fun _ _ _ _ h => matchT2_shape h) _ _ _ c hc)

theorem findallT3_good {t : List Char} : ∀ c ∈ findallT3 t,
    ∃ v, parseCents (removeCommas c) = some v := by
  intro c hc
  exact DecShape_parse
    (scanAux_mem (fun _ _ _ _ h => matchT3_shape h) _ _ _ c hc)

theorem itemsGo_mem {ms : List (List Char × List Char)} {it : Item} :
    it ∈ itemsGo ms ↔ ∃ m ∈ ms, parseCents (cleanPrice m.2) = some it.price ∧
      it.name = strip m.1 ∧ 0 < it.price ∧ 1 < it.name.length := by
  induction ms with
  | nil => simp [itemsGo]
  | cons m rest ih =>
    obtain ⟨n, p⟩ := m
    cases hp : parseCents (cleanPrice p) with
    | none =>
      rw [show itemsGo ((n, p) :: rest) = itemsGo rest by simp [itemsGo, hp]]
      rw [ih]
      constructor
      · rintro ⟨m, hm, hrest⟩
        exact ⟨m, List.mem_cons_of_mem _ hm, hrest⟩
      · rintro ⟨m, hm, hparse, hrest⟩
        rcases List.mem_cons.mp hm with he | hm'
        · rw [he] at hparse
          rw [hp] at hparse
          exact absurd hparse (by simp)
        · exact ⟨m, hm', hparse, hrest⟩
    | some v =>
      by_cases hcond : 0 < v ∧ 1 < (strip n).length
      · rw [show itemsGo ((n, p) :: rest) = ⟨strip n, v⟩ :: itemsGo rest by
          simp [itemsGo, hp, hcond]]
        constructor
        · intro hmem
          rcases List.mem_cons.mp hmem with he | hm'
          · refine ⟨(n, p), List.mem_cons_self _ _, ?_, ?_, ?_, ?_⟩
            · rw [he]; exact hp
            · rw [he]
            · rw [he]; exact hcond.1
            · rw [he]; exact hcond.2
          · obtain ⟨m, hm, hrest⟩ := ih.mp hm'
            exact ⟨m, List.mem_cons_of_mem _ hm, hrest⟩
        · rintro ⟨m, hm, hparse, hname, hpos, hlen⟩
          rcases List.mem_cons.mp hm with he | hm'
          · rw [he] at hparse hname
            rw [hp] at hparse
            have hprice : it.price = v := by
              have := Option.some.inj hparse
              omega
            have : it = ⟨strip n, v⟩ := by
              cases it
              simp_all
            rw [this]
            exact List.mem_cons_self _ _
          · exact List.mem_cons_of_mem _ (ih.mpr ⟨m, hm', hparse, hname, hpos, hlen⟩)
      · rw [show itemsGo ((n, p) :: rest) = itemsGo rest by simp [itemsGo, hp, hcond]]
        rw [ih]
        constructor
        · rintro ⟨m, hm, hrest⟩
          exact ⟨m, List.mem_cons_of_mem _ hm, hrest⟩
        · rintro ⟨m, hm, hparse, hname, hpos, hlen⟩
          rcases List.mem_cons.mp hm with he | hm'
          · rw [he] at hparse hname
            rw [hp] at hparse
            have hprice : it.price = v := by
              have := Option.some.inj hparse
              omega
            exact absurd ⟨hprice ▸ hpos, by rw [← hname]; exact hlen⟩ hcond
          · exact ⟨m, hm', hparse, hname, hpos, hlen⟩

theorem extract_items_pos (t : List Char) :
    ∀ it ∈ extract_items_from_text t, 0 < it.price ∧ 1 < it.name.length := by
  intro it hit
  obtain ⟨m, _, _, _, hpos, hlen⟩ := itemsGo_mem.mp hit
  exact ⟨hpos, hlen⟩

theorem item_total_nonneg {l : List Item} (h : ∀ it ∈ l, 0 < it.price) :
    0 ≤ item_total l := by
  induction l with
  | nil => simp [item_total]
  | cons a rest ih =>
    have ha := h a (List.mem_cons_self a rest)
    have hr := ih (fun it hit => h it (List.mem_cons_of_mem a hit))
    simp only [item_total, List.map_cons, List.sum_cons] at *
    linarith

/-! ## Claim theorems -/

/-- C3: for every input text, the `total` field of
`parse_receipt_with_fallback` equals the largest candidate amount of
`extract_amounts_from_text` when that list is non-empty (its head, which
is an upper bound of the whole list), and otherwise equals the sum of
the extracted item prices plus the extracted tax. -/
theorem c3_total_largest_candidate_or_fallback (t : List Char) (d : String) :
    (extract_amounts_from_text t = [] →
      (parse_receipt_with_fallback t d).total
        = item_total (extract_items_from_text t) + extract_tax_from_text t)
    ∧ ∀ a as, extract_amounts_from_text t = a :: as →
        (parse_receipt_with_fallback t d).total = a
        ∧ ∀ x ∈ extract_amounts_from_text t, x ≤ (parse_receipt_with_fallback t d).total := by
  constructor
  · intro h
    simp [parse_receipt_with_fallback, h]
  · intro a as h
    have htot : (parse_receipt_with_fallback t d).total = a := by
      simp [parse_receipt_with_fallback, h]
    refine ⟨htot, ?_⟩
    intro x hx
    rw [htot]
    have hsorted : (extract_amounts_from_text t).Sorted (· ≥ ·) :=
      List.sorted_insertionSort _ _
    rw [h] at hsorted hx
    rcases List.mem_cons.mp hx with he | hm
    · exact le_of_eq he
    · exact List.rel_of_sorted_cons hsorted x hm

/-- C3 witness at the concrete text of C1. -/
theorem c3_total_largest_candidate_or_fallback_witness :
    (parse_receipt_with_fallback exC1 d0).total = 4567 :=
  ((c3_total_largest_candidate_or_fallback exC1 d0).2 4567 [1000, 300] (by decide)).1

/-- C4 counterexample: the claim says `subtotal` is always a
non-negative decimal, but on `exC4` the extracted tax (4567.89) exceeds
the largest candidate amount (5.00), so `subtotal = -4562.89 < 0`. -/
theorem c4_subtotal_counterexample :
    (parse_receipt_with_fallback exC4 d0).subtotal < 0 := by decide

/-- C4 amended: the `subtotal` field is non-negative whenever no tax was
extracted (it is then the sum of the extracted item prices, each
positive); when tax is positive it is `total - tax` and can be
negative. -/
theorem c4_subtotal_nonneg_when_no_tax (t : List Char) (d : String)
    (h : extract_tax_from_text t = 0) :
    (parse_receipt_with_fallback t d).subtotal = item_total (extract_items_from_text t)
    ∧ 0 ≤ (parse_receipt_with_fallback t d).subtotal := by
  have hsub : (parse_receipt_with_fallback t d).subtotal
      = item_total (extract_items_from_text t) := by
    simp [parse_receipt_with_fallback, h]
  refine ⟨hsub, ?_⟩
  rw [hsub]
  exact item_total_nonneg (fun it hit => (extract_items_pos t it hit).1)

/-- C4 witness at the concrete text of C2 (no tax keyword, two items). -/
theorem c4_subtotal_nonneg_when_no_tax_witness :
    (parse_receipt_with_fallback exC2 d0).subtotal = item_total (extract_items_from_text exC2)
    ∧ 0 ≤ (parse_receipt_with_fallback exC2 d0).subtotal :=
  c4_subtotal_nonneg_when_no_tax exC2 d0 (by decide)

/-- C5: for every input text, every element of
`extract_amounts_from_text` lies in `[0.01, 99999.99]` (1 to 9999999
cents), and the list is strictly descending (hence duplicate-free). -/
theorem c5_amounts_range_sorted_nodup (t : List Char) :
    (∀ x ∈ extract_amounts_from_text t, 1 ≤ x ∧ x ≤ 9999999)
    ∧ (extract_amounts_from_text t).Pairwise (· > ·) := by
  constructor
  · intro x hx
    have hx' : x ∈ raw_amounts t := by
      have hperm : List.Perm (extract_amounts_from_text t) (raw_amounts t).dedup :=
        List.perm_insertionSort _ _
      exact List.mem_dedup.mp (hperm.mem_iff.mp hx)
    obtain ⟨c, _, hc⟩ := List.mem_filterMap.mp hx'
    unfold amountOfCapture at hc
    split at hc
    · rename_i v hv
      split at hc
      · rename_i hrange
        have : v = x := Option.some.inj hc
        exact this ▸ hrange
      · exact absurd hc (by simp)
    · exact absurd hc (by simp)
  · have hsorted : (extract_amounts_from_text t).Pairwise (· ≥ ·) :=
      List.sorted_insertionSort _ _
    have hnodup : (extract_amounts_from_text t).Nodup :=
      (List.perm_insertionSort _ _).nodup_iff.mpr (List.nodup_dedup _)
    exact (hsorted.and hnodup).imp (fun h => lt_of_le_of_ne h.1 (Ne.symm h.2))

/-- C5 witness: the head amount of the C1 text is in range. -/
theorem c5_amounts_range_sorted_nodup_witness :
    1 ≤ (extract_amounts_from_text exC1).headD 0
    ∧ (extract_amounts_from_text exC1).headD 0 ≤ 9999999 :=
  (c5_amounts_range_sorted_nodup exC1).1 ((extract_amounts_from_text exC1).headD 0) (by decide)

/-- C8: for every input text, the parser returns a complete record (the
embedding is a total function): `category` is always `"Other"`, the
merchant degrades to `"Unknown"` when the text has no non-blank line,
and when all extraction comes up empty the numeric fields and the item
list degrade to zeros and `[]`. -/
theorem c8_total_function_graceful_defaults (t : List Char) (d : String) :
    (parse_receipt_with_fallback t d).category = ['O','t','h','e','r']
    ∧ (receiptLines t = [] →
        (parse_receipt_with_fallback t d).merchant = ['U','n','k','n','o','w','n'])
    ∧ (extract_amounts_from_text t = [] → extract_items_from_text t = [] →
        extract_tax_from_text t = 0 →
        (parse_receipt_with_fallback t d).total = 0
        ∧ (parse_receipt_with_fallback t d).tax = 0
        ∧ (parse_receipt_with_fallback t d).subtotal = 0
        ∧ (parse_receipt_with_fallback t d).items = []) := by
  refine ⟨rfl, ?_, ?_⟩
  · intro h
    simp [parse_receipt_with_fallback, h]
  · intro h1 h2 h3
    refine ⟨?_, ?_, ?_, ?_⟩
    · simp [parse_receipt_with_fallback, h1, h2, h3, item_total]
    · simp [parse_receipt_with_fallback, h3]
    · simp [parse_receipt_with_fallback, h1, h2, h3, item_total]
    · simp [parse_receipt_with_fallback, h2]

/-- C8 witness at the empty text. -/
theorem c8_total_function_graceful_defaults_witness :
    (parse_receipt_with_fallback [] d0).merchant = ['U','n','k','n','o','w','n']
    ∧ (parse_receipt_with_fallback [] d0).total = 0
    ∧ (parse_receipt_with_fallback [] d0).tax = 0
    ∧ (parse_receipt_with_fallback [] d0).subtotal = 0
    ∧ (parse_receipt_with_fallback [] d0).items = [] :=
  ⟨(c8_total_function_graceful_defaults [] d0).2.1 (by decide),
   (c8_total_function_graceful_defaults [] d0).2.2 (by decide) (by decide) (by decide)⟩

/-- C9: with the clock read isolated as an argument, every field of the
record other than `date` is a deterministic function of the input text
alone: two runs with different injected dates agree on all of them. -/
theorem c9_deterministic_except_date (t : List Char) (d1 d2 : String) :
    (parse_receipt_with_fallback t d1).merchant = (parse_receipt_with_fallback t d2).merchant
    ∧ (parse_receipt_with_fallback t d1).total = (parse_receipt_with_fallback t d2).total
    ∧ (parse_receipt_with_fallback t d1).tax = (parse_receipt_with_fallback t d2).tax
    ∧ (parse_receipt_with_fallback t d1).subtotal = (parse_receipt_with_fallback t d2).subtotal
    ∧ (parse_receipt_with_fallback t d1).items = (parse_receipt_with_fallback t d2).items
    ∧ (parse_receipt_with_fallback t d1).category = (parse_receipt_with_fallback t d2).category :=
  ⟨rfl, rfl, rfl, rfl, rfl, rfl⟩

/-- C10: when the item extractor finds more than 20 entries, the
returned `items` field is the 20-entry truncation, while `item_total`
(and hence `total` when no candidate amounts exist) sums over all
extracted items — so `total` can include prices of items absent from the
returned list. -/
theorem c10_item_total_sums_untruncated_items (t : List Char) (d : String)
    (h : 20 < (extract_items_from_text t).length) :
    (parse_receipt_with_fallback t d).items = (extract_items_from_text t).take 20
    ∧ (parse_receipt_with_fallback t d).items.length = 20
    ∧ (extract_amounts_from_text t = [] →
        (parse_receipt_with_fallback t d).total
          = item_total (extract_items_from_text t) + extract_tax_from_text t) := by
  refine ⟨rfl, ?_, ?_⟩
  · show ((extract_items_from_text t).take 20).length = 20
    rw [List.length_take]
    omega
  · intro ha
    simp [parse_receipt_with_fallback, ha]

set_option maxRecDepth 100000 in
/-- C10 witness: 21 item lines whose prices no amount pattern matches;
the returned total (2100000 cents) includes the price of the 21st item,
which is missing from the truncated list (sum 2000000 cents). -/
theorem c10_item_total_sums_untruncated_items_witness :
    20 < (extract_items_from_text exC10).length
    ∧ ((parse_receipt_with_fallback exC10 d0).items = (extract_items_from_text exC10).take 20
      ∧ (parse_receipt_with_fallback exC10 d0).items.length = 20
      ∧ (extract_amounts_from_text exC10 = [] →
          (parse_receipt_with_fallback exC10 d0).total
            = item_total (extract_items_from_text exC10) + extract_tax_from_text exC10)) :=
  ⟨by decide, c10_item_total_sums_untruncated_items exC10 d0 (by decide)⟩

/-- C1 counterexample: on the C1 text the item pattern also matches the
`Total:` and `Tax` lines, so `items` is not the one-element Widget
list. -/
theorem c1_items_counterexample :
    (parse_receipt_with_fallback exC1 d0).items ≠ [Item.mk ['W','i','d','g','e','t'] 1000] := by
  decide

/-- C1 amended: on the C1 text, `total = 45.67`, `tax = 3.00`,
`subtotal = 42.67` as claimed, but `items` has three entries — the
`Total:` and `Tax` lines are matched by the item pattern too (names
`"Total:"` and `"Tax"` with prices 45.67 and 3.00), before Widget. -/
theorem c1_concrete_parse_amended (d : String) :
    (parse_receipt_with_fallback exC1 d).total = 4567
    ∧ (parse_receipt_with_fallback exC1 d).tax = 300
    ∧ (parse_receipt_with_fallback exC1 d).subtotal = 4267
    ∧ (parse_receipt_with_fallback exC1 d).items
        = [Item.mk ['T','o','t','a','l',':'] 4567, Item.mk ['T','a','x'] 300,
           Item.mk ['W','i','d','g','e','t'] 1000]
    ∧ (parse_receipt_with_fallback exC1 d).merchant
        = ['T','o','t','a','l',':',' ','$','4','5','.','6','7'] := by
  refine ⟨?_, ?_, ?_, ?_, ?_⟩ <;> rfl

/-- C2 counterexample: on the C2 text the amount extractor matches the
two `$`-prefixed prices, so `total` is 12.00 (the largest candidate),
not the claimed 14.50. -/
theorem c2_total_counterexample :
    (parse_receipt_with_fallback exC2 d0).total ≠ 1450 := by
  decide

/-- C2 amended: on the C2 text, `total = 12.00` (the largest candidate
amount — the currency-symbol pattern does match both item prices, so the
item-sum fallback is not taken) while `subtotal = 14.50` (tax is 0, so
`subtotal` is the item total). -/
theorem c2_concrete_parse_amended (d : String) :
    (parse_receipt_with_fallback exC2 d).total = 1200
    ∧ (parse_receipt_with_fallback exC2 d).subtotal = 1450
    ∧ (parse_receipt_with_fallback exC2 d).tax = 0
    ∧ (parse_receipt_with_fallback exC2 d).items
        = [Item.mk ['P','e','n'] 250, Item.mk ['B','o','o','k'] 1200] := by
  refine ⟨?_, ?_, ?_, ?_⟩ <;> rfl

/-- C6: the tax extractor returns the value of the first (leftmost)
match of the highest-priority tax pattern with any match — the two
keyword-before-amount patterns are tried before the amount-before-
keyword pattern — and 0.00 when no pattern matches; the first match of
a tax pattern always parses (shape `\d+\.\d{2}`). -/
theorem c6_tax_first_match_by_priority (t : List Char) :
    (∀ c cs, findallT1 t = c :: cs →
      parseCents (removeCommas c) ≠ none
      ∧ extract_tax_from_text t = (parseCents (removeCommas c)).getD 0)
    ∧ (findallT1 t = [] → ∀ c cs, findallT2 t = c :: cs →
      parseCents (removeCommas c) ≠ none
      ∧ extract_tax_from_text t = (parseCents (removeCommas c)).getD 0)
    ∧ (findallT1 t = [] → findallT2 t = [] → ∀ c cs, findallT3 t = c :: cs →
      parseCents (removeCommas c) ≠ none
      ∧ extract_tax_from_text t = (parseCents (removeCommas c)).getD 0)
    ∧ (findallT1 t = [] → findallT2 t = [] → findallT3 t = [] →
      extract_tax_from_text t = 0) := by
  refine ⟨?_, ?_, ?_, ?_⟩
  · intro c cs h
    obtain ⟨v, hv⟩ := findallT1_good c (by rw [h]; exact List.mem_cons_self c cs)
    constructor
    · rw [hv]; simp
    · simp [extract_tax_from_text, h, hv]
  · intro h1 c cs h
    obtain ⟨v, hv⟩ := findallT2_good c (by rw [h]; exact List.mem_cons_self c cs)
    constructor
    · rw [hv]; simp
    · simp [extract_tax_from_text, taxFrom2, h1, h, hv]
  · intro h1 h2 c cs h
    obtain ⟨v, hv⟩ := findallT3_good c (by rw [h]; exact List.mem_cons_self c cs)
    constructor
    · rw [hv]; simp
    · simp [extract_tax_from_text, taxFrom2, taxFrom3, h1, h2, h, hv]
  · intro h1 h2 h3
    simp [extract_tax_from_text, taxFrom2, taxFrom3, h1, h2, h3]

/-- C6 witness: on the C1 text the first pattern's first match is
`3.00`. -/
theorem c6_tax_first_match_by_priority_witness :
    parseCents (removeCommas ['3','.','0','0']) ≠ none
    ∧ extract_tax_from_text exC1 = (parseCents (removeCommas ['3','.','0','0'])).getD 0 :=
  (c6_tax_first_match_by_priority exC1).1 ['3','.','0','0'] [] (by decide)

/-- C7 counterexample: on `"ab £2.50"` the item pattern matches and
stripping all currency symbols (the spec's words, `specStripCurrency`)
would give the positive price 2.50 with name `"ab"` of length 2, so the
claim predicts one entry — but the code strips only `'$'`, the parse of
`"£2.50"` fails, and the entry is dropped. -/
theorem c7_items_counterexample :
    findallItem exC7 = [(['a','b'], ['£','2','.','5','0'])]
    ∧ parseCents (specStripCurrency ['£','2','.','5','0']) = some 250
    ∧ extract_items_from_text exC7 = [] := by
  refine ⟨by decide, by decide, by decide⟩

/-- C7 amended: only `'$'` and `','` are stripped from a matched price;
an entry appears in the output iff its cleaned price string parses
(which fails for `£`/`€`-prefixed prices) to a strictly positive value
and its trimmed name has length > 1; in particular no entry with
non-positive price or name of length ≤ 1 is ever returned. -/
theorem c7_items_kept_iff_parsed_positive_and_named (t : List Char) :
    (∀ it ∈ extract_items_from_text t,
        (0 < it.price ∧ 1 < it.name.length)
        ∧ ∃ m ∈ findallItem t, it.name = strip m.1
            ∧ parseCents (cleanPrice m.2) = some it.price)
    ∧ (∀ m ∈ findallItem t, ∀ v, parseCents (cleanPrice m.2) = some v →
        0 < v → 1 < (strip m.1).length →
        Item.mk (strip m.1) v ∈ extract_items_from_text t) := by
  constructor
  · intro it hit
    obtain ⟨m, hm, hparse, hname, hpos, hlen⟩ := itemsGo_mem.mp hit
    exact ⟨⟨hpos, hlen⟩, m, hm, hname, hparse⟩
  · intro m hm v hparse hpos hlen
    exact itemsGo_mem.mpr ⟨m, hm, hparse, rfl, hpos, hlen⟩

/-- C7 witness: the `$`-variant of the same line is kept. -/
theorem c7_items_kept_iff_parsed_positive_and_named_witness :
    Item.mk (strip ['a','b']) 250 ∈ extract_items_from_text exC7w :=
  (c7_items_kept_iff_parsed_positive_and_named exC7w).2 (['a','b'], ['$','2','.','5','0'])
    (by decide) 250 (by decide) (by decide) (by decide)

end Raseed
